import Mathlib

/-!
# Verification of the ml-georeferencer transform/quality/io core

A shallow embedding of the Rust sources of the `ml-georeferencer`
repository, together with theorems settling the frozen claims about it.

Conventions of the embedding:

* `f64` arithmetic on values that the code keeps finite is idealised as
  exact real (or, where no transcendental function intervenes, as an
  arbitrary `LinearOrderedField`) arithmetic.  Where the *non-finite*
  behaviour of `f64` matters (NaN / infinity propagation), a dedicated
  `FP` model with explicit `fin / inf / ninf / nan` constructors is used.
* Rust `Result` becomes `Except`, `Option` stays `Option`.
* Filesystem and decoder access of the `io` crate is modelled by explicit
  environment parameters (an association list of text files, and a store
  of decoded TIFF tag tables).
-/

namespace Georeferencer

/-! ## Small 2-d linear algebra (embedding of the used part of nalgebra) -/

/-- A 2-d column vector (`nalgebra::Vector2<f64>`). -/
@[ext]
structure Vec2 (K : Type) where
  x : K
  y : K
  deriving DecidableEq, Repr

/-- A 2×2 matrix (`nalgebra::Matrix2<f64>`); `m11 m12 / m21 m22` row major. -/
@[ext]
structure Mat2 (K : Type) where
  m11 : K
  m12 : K
  m21 : K
  m22 : K
  deriving DecidableEq, Repr

variable {K : Type}

def Vec2.add [Add K] (u v : Vec2 K) : Vec2 K := ⟨u.x + v.x, u.y + v.y⟩

def Vec2.sub [Sub K] (u v : Vec2 K) : Vec2 K := ⟨u.x - v.x, u.y - v.y⟩

def Vec2.smul [Mul K] (c : K) (v : Vec2 K) : Vec2 K := ⟨c * v.x, c * v.y⟩

def Vec2.div [Div K] (v : Vec2 K) (c : K) : Vec2 K := ⟨v.x / c, v.y / c⟩

def Vec2.norm_squared [Mul K] [Add K] (v : Vec2 K) : K := v.x * v.x + v.y * v.y

/-- Euclidean norm, `nalgebra`'s `.norm()`. -/
noncomputable def Vec2.norm (v : Vec2 ℝ) : ℝ := Real.sqrt v.norm_squared

def Mat2.add [Add K] (m n : Mat2 K) : Mat2 K :=
  ⟨m.m11 + n.m11, m.m12 + n.m12, m.m21 + n.m21, m.m22 + n.m22⟩

def Mat2.mul [Mul K] [Add K] (m n : Mat2 K) : Mat2 K :=
  ⟨m.m11 * n.m11 + m.m12 * n.m21, m.m11 * n.m12 + m.m12 * n.m22,
   m.m21 * n.m11 + m.m22 * n.m21, m.m21 * n.m12 + m.m22 * n.m22⟩

def Mat2.mulVec [Mul K] [Add K] (m : Mat2 K) (v : Vec2 K) : Vec2 K :=
  ⟨m.m11 * v.x + m.m12 * v.y, m.m21 * v.x + m.m22 * v.y⟩

def Mat2.transpose (m : Mat2 K) : Mat2 K := ⟨m.m11, m.m21, m.m12, m.m22⟩

def Mat2.determinant [Mul K] [Sub K] (m : Mat2 K) : K := m.m11 * m.m22 - m.m12 * m.m21

def Mat2.trace [Add K] (m : Mat2 K) : K := m.m11 + m.m22

/-- Outer product `u * vᵗ` of two column vectors. -/
def Vec2.outer [Mul K] (u v : Vec2 K) : Mat2 K :=
  ⟨u.x * v.x, u.x * v.y, u.y * v.x, u.y * v.y⟩

/-- Embedding of `f64::atan2`: `atan2 y x` is the angle of the vector `(x, y)`, in
`(-π, π]`.  `Complex.arg` has exactly these semantics on the plane. -/
noncomputable def atan2 (y x : ℝ) : ℝ := Complex.arg ⟨x, y⟩

/-- The rotation matrix `R(θ) = [[cos θ, -sin θ], [sin θ, cos θ]]`. -/
noncomputable def rot (θ : ℝ) : Mat2 ℝ :=
  ⟨Real.cos θ, -Real.sin θ, Real.sin θ, Real.cos θ⟩

/-! ## `types` crate: transform parameter records -/

/-- Embedding of `types::Similarity { params: [f64; 4] }`; `params = [s, theta, tx, ty]`
(uniform scale, rotation angle, translation). -/
@[ext]
structure Similarity where
  s : ℝ
  theta : ℝ
  tx : ℝ
  ty : ℝ

/-- Embedding of `types::Affine { params: [f64; 6] }`; `params = [a, b, c, d, tx, ty]`,
`apply p = [[a,b],[c,d]] p + (tx, ty)`. -/
@[ext]
structure Affine where
  a : ℝ
  b : ℝ
  c : ℝ
  d : ℝ
  tx : ℝ
  ty : ℝ

/-! ## `solver` crate: transform algebra -/

/-- Embedding of `impl Transform for Similarity` (`solver/src/lib.rs`):
`apply(p) = s · R(θ) · p + (tx, ty)`. -/
noncomputable def Similarity.apply (t : Similarity) (point : Vec2 ℝ) : Vec2 ℝ :=
  (Vec2.smul t.s ((rot t.theta).mulVec point)).add ⟨t.tx, t.ty⟩

/-- Embedding of `solver::invert_similarity`: `s⁻¹ = 1/s`, `θ⁻¹ = -θ`,
`t⁻¹ = -s⁻¹ · Rᵗ · t` where `Rᵗ = [[c, si], [-si, c]]`. -/
noncomputable def invert_similarity (sim : Similarity) : Similarity :=
  let c := Real.cos sim.theta
  let si := Real.sin sim.theta
  let r_t : Mat2 ℝ := ⟨c, si, -si, c⟩
  let inv_s := 1 / sim.s
  let t : Vec2 ℝ := ⟨sim.tx, sim.ty⟩
  let t_inv := Vec2.smul (-inv_s) (r_t.mulVec t)
  ⟨inv_s, -sim.theta, t_inv.x, t_inv.y⟩

/-- Embedding of `solver::compose_similarity`: composes two similarities, the result is
`b ∘ a` ("a then b").  `s = s2·s1`, `r = R(θ2)·R(θ1)`,
`t = s2·(R(θ2)·t1) + t2`; the angle is recovered from `r` by
`atan2(r[(1,0)], r[(0,0)])`. -/
noncomputable def compose_similarity (a b : Similarity) : Similarity :=
  let s1 := a.s
  let t1 : Vec2 ℝ := ⟨a.tx, a.ty⟩
  let r1 := rot a.theta
  let s2 := b.s
  let t2 : Vec2 ℝ := ⟨b.tx, b.ty⟩
  let r2 := rot b.theta
  let s := s2 * s1
  let r := r2.mul r1
  let t := (Vec2.smul s2 (r2.mulVec t1)).add t2
  ⟨s, atan2 r.m21 r.m11, t.x, t.y⟩

/-- The compose rule exactly as the specification words it ("Compose(a then
b): `s = sa·sb, θ = θa+θb, t = sa·R(θa)·tb + ta`"), for comparison with the
code's `compose_similarity`. -/
noncomputable def compose_similarity_spec (a b : Similarity) : Similarity :=
  let t := (Vec2.smul a.s ((rot a.theta).mulVec ⟨b.tx, b.ty⟩)).add ⟨a.tx, a.ty⟩
  ⟨a.s * b.s, a.theta + b.theta, t.x, t.y⟩

/-! ## `solver` crate: least-squares similarity fit -/

/-- Embedding of `f64::EPSILON = 2⁻⁵²`. -/
noncomputable def f64_EPSILON : ℝ := 1 / 2 ^ 52

/-- The error kinds `fit_similarity_from_pairs` can produce (the code uses
`anyhow` strings; only the kind matters). -/
inductive FitError where
  | insufficientData
  | degenerateGeometry
  deriving DecidableEq

/-- Flip the sign of a matrix's second column
(`u_clone.column_mut(1).scale_mut(-1.0)`). -/
def Mat2.negCol2 (m : Mat2 ℝ) : Mat2 ℝ := ⟨m.m11, -m.m12, m.m21, -m.m22⟩

/-- Closed-form factors of a 2×2 SVD: a model of
`nalgebra::SVD::new(c, true, true)`.  With both compute flags set the
library always returns `u` and `v_t`, so the code's "SVD U matrix not
found" error branches are unreachable and are not modelled. -/
noncomputable def svd2 (m : Mat2 ℝ) : Mat2 ℝ × Mat2 ℝ :=
  let e := (m.m11 + m.m22) / 2
  let f := (m.m11 - m.m22) / 2
  let g := (m.m21 + m.m12) / 2
  let h := (m.m21 - m.m12) / 2
  let a1 := atan2 g f
  let a2 := atan2 h e
  let beta := (a2 - a1) / 2
  let gamma := (a2 + a1) / 2
  let q := Real.sqrt (e ^ 2 + h ^ 2)
  let r := Real.sqrt (f ^ 2 + g ^ 2)
  let sy := q - r
  let u := rot gamma
  let vt := (rot beta).transpose
  if sy < 0 then (u.negCol2, vt) else (u, vt)

/-- The sum of squared centered-source norms computed by
`fit_similarity_from_pairs` (`sum_centered_src_sq_norm` in the source). -/
noncomputable def sum_centered_src_sq_norm (pairs : List (Vec2 ℝ × Vec2 ℝ)) : ℝ :=
  let n := pairs.length
  let src_points := pairs.map Prod.fst
  let src_centroid := (src_points.foldl Vec2.add ⟨0, 0⟩).div (n : ℝ)
  let centered_src := src_points.map (fun p => p.sub src_centroid)
  (centered_src.map Vec2.norm_squared).sum

/-- Embedding of `solver::fit_similarity_from_pairs` (Procrustes/Umeyama).  The
`!sum.is_finite()` disjunct of the degeneracy guard is vacuous in the
exact-real idealisation of `f64` and is noted here rather than modelled. -/
noncomputable def fit_similarity_from_pairs (pairs : List (Vec2 ℝ × Vec2 ℝ)) :
    Except FitError Similarity :=
  let n := pairs.length
  if n < 2 then .error .insufficientData
  else
    let src_points := pairs.map Prod.fst
    let dst_points := pairs.map Prod.snd
    let src_centroid := (src_points.foldl Vec2.add ⟨0, 0⟩).div (n : ℝ)
    let dst_centroid := (dst_points.foldl Vec2.add ⟨0, 0⟩).div (n : ℝ)
    let centered_src := src_points.map (fun p => p.sub src_centroid)
    let centered_dst := dst_points.map (fun p => p.sub dst_centroid)
    if sum_centered_src_sq_norm pairs ≤ f64_EPSILON then .error .degenerateGeometry
    else
      let c := (centered_dst.zip centered_src).foldl
        (fun m p => m.add (p.1.outer p.2)) ⟨0, 0, 0, 0⟩
      let uv := svd2 c
      let u := uv.1
      let v_t := uv.2
      let r0 := u.mul v_t
      let r := if r0.determinant < 0 then (u.negCol2).mul v_t else r0
      let s := ((c.transpose).mul r).trace / sum_centered_src_sq_norm pairs
      let t := dst_centroid.sub (Vec2.smul s (r.mulVec src_centroid))
      let theta := atan2 r.m21 r.m11
      .ok ⟨s, theta, t.x, t.y⟩

/-! ## Quality engine (`apps/desktop/src-tauri/src/main.rs`) -/

/-- Embedding of `main.rs::summarize_residuals`.  Returns `(rmse, p90, residuals)`.  The
residual vector is sorted ascending in place (stable, by `sort_by` with the
`partial_cmp` comparator) before indexing for p90 and before being
returned. -/
noncomputable def summarize_residuals (residuals : List ℝ) : ℝ × ℝ × List ℝ :=
  if residuals = [] then (0, 0, residuals)
  else
    let rmse := Real.sqrt ((residuals.map (fun r => r * r)).sum / (residuals.length : ℝ))
    let sorted := residuals.insertionSort (· ≤ ·)
    let idx := min (Int.toNat ⌊(residuals.length : ℝ) * 0.9⌋) (residuals.length - 1)
    (rmse, sorted.getD idx 0, sorted)

/-- Embedding of `main.rs::metrics_similarity`: Euclidean residuals of each pair under
the fitted similarity, summarised by `summarize_residuals`. -/
noncomputable def metrics_similarity (t : Similarity)
    (pairs : List ((ℝ × ℝ) × (ℝ × ℝ))) : ℝ × ℝ × List ℝ :=
  summarize_residuals (pairs.map (fun pr =>
    ((t.apply ⟨pr.1.1, pr.1.2⟩).sub ⟨pr.2.1, pr.2.2⟩).norm))

/-! ## `types` crate: quality metrics and unit conversion

These parts of the code use only field arithmetic on values the code keeps
finite, so they are embedded polymorphically over a linear ordered field
`K` (instantiate `K := ℝ` for the program semantics, `K := ℚ` to
evaluate). -/

/-- Embedding of `types::ErrorUnit`. -/
inductive ErrorUnit where
  | pixels
  | meters
  | mapMillimeters
  deriving DecidableEq, Repr

/-- Embedding of `types::QualityMetrics`. -/
@[ext]
structure QualityMetrics (K : Type) where
  rmse : K
  p90_error : K
  residuals : List K
  residuals_by_id : List (ℕ × K)
  warnings : List String
  unit : ErrorUnit
  map_scale : Option K
  deriving DecidableEq

variable {K : Type}

/-- Embedding of `QualityMetrics::convert_units` (`types/src/lib.rs`): rewrites all
numeric fields by a factor chosen from `(self.unit, target)`; conversions
touching `MapMillimeters` fall back to factor `1` when `map_scale` is
absent; the unit tag is always set to `target` and the stored scale
denominator is overwritten only when `target` is `MapMillimeters`. -/
def QualityMetrics.convert_units [Field K] (qm : QualityMetrics K)
    (pixel_size : K) (map_scale : Option K) (target : ErrorUnit) : QualityMetrics K :=
  let factor : K :=
    match qm.unit, target with
    | .pixels, .meters => pixel_size
    | .meters, .pixels => 1 / pixel_size
    | .pixels, .mapMillimeters =>
      match map_scale with
      | some s => pixel_size * (1000 / s)
      | none => 1
    | .mapMillimeters, .pixels =>
      match map_scale with
      | some s => (s / 1000) / pixel_size
      | none => 1
    | .meters, .mapMillimeters =>
      match map_scale with
      | some s => 1000 / s
      | none => 1
    | .mapMillimeters, .meters =>
      match map_scale with
      | some s => s / 1000
      | none => 1
    | _, _ => 1
  { rmse := qm.rmse * factor
    p90_error := qm.p90_error * factor
    residuals := qm.residuals.map (fun r => r * factor)
    residuals_by_id := qm.residuals_by_id.map (fun p => (p.1, p.2 * factor))
    warnings := qm.warnings
    unit := target
    map_scale := if target = .mapMillimeters then map_scale else qm.map_scale }

/-! ## An `f64` model with explicit non-finite values

Used where NaN/infinity behaviour of the code matters (the constraint
filter's `is_finite` checks, and `invert_similarity` at scale 0).  Finite
arithmetic is exact; signed zero and overflow are not modelled. -/

/-- Model of `f64`: a finite value in the carrier `K`, `+∞`, `-∞`, or NaN. -/
inductive FP (K : Type) where
  | fin (x : K)
  | inf
  | ninf
  | nan
  deriving DecidableEq, Repr

namespace FP

/-- Embedding of `f64::is_finite`. -/
def isFinite : FP K → Bool
  | .fin _ => true
  | _ => false

variable [LinearOrderedField K]

/-- IEEE negation. -/
def neg : FP K → FP K
  | .fin x => .fin (-x)
  | .inf => .ninf
  | .ninf => .inf
  | .nan => .nan

/-- IEEE addition. -/
def add : FP K → FP K → FP K
  | .nan, _ => .nan
  | _, .nan => .nan
  | .fin a, .fin b => .fin (a + b)
  | .fin _, .inf => .inf
  | .inf, .fin _ => .inf
  | .fin _, .ninf => .ninf
  | .ninf, .fin _ => .ninf
  | .inf, .inf => .inf
  | .ninf, .ninf => .ninf
  | .inf, .ninf => .nan
  | .ninf, .inf => .nan

/-- IEEE subtraction. -/
def sub : FP K → FP K → FP K
  | .nan, _ => .nan
  | _, .nan => .nan
  | .fin a, .fin b => .fin (a - b)
  | .fin _, .inf => .ninf
  | .inf, .fin _ => .inf
  | .fin _, .ninf => .inf
  | .ninf, .fin _ => .ninf
  | .inf, .inf => .nan
  | .ninf, .ninf => .nan
  | .inf, .ninf => .inf
  | .ninf, .inf => .ninf

/-- IEEE multiplication (`±∞ · 0 = NaN`). -/
def mul : FP K → FP K → FP K
  | .nan, _ => .nan
  | _, .nan => .nan
  | .fin a, .fin b => .fin (a * b)
  | .fin a, .inf => if a = 0 then .nan else if 0 < a then .inf else .ninf
  | .inf, .fin b => if b = 0 then .nan else if 0 < b then .inf else .ninf
  | .fin a, .ninf => if a = 0 then .nan else if 0 < a then .ninf else .inf
  | .ninf, .fin b => if b = 0 then .nan else if 0 < b then .ninf else .inf
  | .inf, .inf => .inf
  | .ninf, .ninf => .inf
  | .inf, .ninf => .ninf
  | .ninf, .inf => .ninf

/-- IEEE division (`x/0 = ±∞` for `x ≠ 0`, `0/0 = NaN`; unsigned zero). -/
def div : FP K → FP K → FP K
  | .nan, _ => .nan
  | _, .nan => .nan
  | .fin a, .fin b =>
    if b = 0 then (if a = 0 then .nan else if 0 < a then .inf else .ninf)
    else .fin (a / b)
  | .fin _, .inf => .fin 0
  | .fin _, .ninf => .fin 0
  | .inf, .fin b => if 0 ≤ b then .inf else .ninf
  | .ninf, .fin b => if 0 ≤ b then .ninf else .inf
  | .inf, .inf => .nan
  | .inf, .ninf => .nan
  | .ninf, .inf => .nan
  | .ninf, .ninf => .nan

/-- IEEE `<=` (false whenever either side is NaN). -/
def le : FP K → FP K → Bool
  | .nan, _ => false
  | _, .nan => false
  | .fin a, .fin b => decide (a ≤ b)
  | .ninf, _ => true
  | _, .inf => true
  | _, .ninf => false
  | .inf, _ => false

/-- IEEE `==` (false whenever either side is NaN, in particular
`NaN == NaN` is false). -/
def beq : FP K → FP K → Bool
  | .nan, _ => false
  | _, .nan => false
  | .fin a, .fin b => decide (a = b)
  | .inf, .inf => true
  | .ninf, .ninf => true
  | _, _ => false

end FP

/-- An `[f64; 2]` point. -/
abbrev FPoint (K : Type) := FP K × FP K

/-! ## `types` crate: the constraint entity set -/

/-- Embedding of `types::ConstraintKind`; ids are `u64`, modelled by `ℕ`. -/
inductive ConstraintKind (K : Type) where
  | point (id : ℕ) (point : FPoint K) (weight : FP K)
  | pointPair (id : ℕ) (src dst : FPoint K) (dst_real dst_local : Option (FPoint K))
      (weight : FP K)
  | polyline (id : ℕ) (points : List (FPoint K)) (weight : FP K)
  | polygon (id : ℕ) (points : List (FPoint K)) (weight : FP K)
  | anisotropicPin (id : ℕ) (point : FPoint K) (sigma_major sigma_minor angle : FP K)
  | anchor (id : ℕ) (point : FPoint K)
  deriving DecidableEq

/-- Embedding of `ConstraintKind::id()`. -/
def ConstraintKind.id : ConstraintKind K → ℕ
  | .point i _ _ => i
  | .pointPair i _ _ _ _ _ => i
  | .polyline i _ _ => i
  | .polygon i _ _ => i
  | .anisotropicPin i _ _ _ _ => i
  | .anchor i _ => i

/-! ## `solver` crate: the constraint filter -/

/-- The degeneracy threshold `1e-24` of `pairs_from_constraints`
(`|src - dst| ≤ 1e-12` in L2 norm, squared). -/
def DEG_EPS (K : Type) [Field K] : K := 1 / 10 ^ 24

/-- Are all four coordinates of a (src, dst) pair finite? -/
def pair_finite (pr : FPoint K × FPoint K) : Bool :=
  pr.1.1.isFinite && pr.1.2.isFinite && pr.2.1.isFinite && pr.2.2.isFinite

/-- The squared src–dst distance `(sx-dx)² + (sy-dy)²`, in `f64`
arithmetic. -/
def pair_dsq [LinearOrderedField K] (pr : FPoint K × FPoint K) : FP K :=
  FP.add (FP.mul (FP.sub pr.1.1 pr.2.1) (FP.sub pr.1.1 pr.2.1))
    (FP.mul (FP.sub pr.1.2 pr.2.2) (FP.sub pr.1.2 pr.2.2))

/-- The `f64` `==`-comparison of two (src, dst) pairs used by the
duplicate filter (`p.0 == pair.0 && p.1 == pair.1`, elementwise on the
coordinate arrays). -/
def fpair_eq [LinearOrderedField K] (p q : FPoint K × FPoint K) : Bool :=
  FP.beq p.1.1 q.1.1 && FP.beq p.1.2 q.1.2 && FP.beq p.2.1 q.2.1 && FP.beq p.2.2 q.2.2

/-- The loop of `solver::pairs_from_constraints`, with the output
accumulator `out` explicit.  Per constraint: keep only `PointPair`s, skip
when a coordinate is non-finite, skip when the squared src–dst distance is
`≤ 1e-24`, skip exact duplicates of an already-kept pair, else push. -/
def pairs_loop [LinearOrderedField K] :
    List (ConstraintKind K) → List (FPoint K × FPoint K) → List (FPoint K × FPoint K)
  | [], out => out
  | c :: rest, out =>
    match c with
    | .pointPair _ src dst _ _ _ =>
      if ¬ pair_finite (src, dst) then pairs_loop rest out
      else if FP.le (pair_dsq (src, dst)) (.fin (DEG_EPS K)) then pairs_loop rest out
      else if out.any (fun p => fpair_eq p (src, dst)) then pairs_loop rest out
      else pairs_loop rest (out ++ [(src, dst)])
    | _ => pairs_loop rest out

/-- Embedding of `solver::pairs_from_constraints`. -/
def pairs_from_constraints [LinearOrderedField K]
    (constraints : List (ConstraintKind K)) : List (FPoint K × FPoint K) :=
  pairs_loop constraints []

/-- The per-element filter exactly as the specification words it: keep only
`PointPair` entries, with all four coordinates finite and squared src–dst
distance strictly greater than `1e-24`, in input order (duplicates not yet
removed). -/
def spec_candidates [LinearOrderedField K]
    (constraints : List (ConstraintKind K)) : List (FPoint K × FPoint K) :=
  constraints.filterMap fun c =>
    match c with
    | .pointPair _ src dst _ _ _ =>
      if pair_finite (src, dst) ∧ ¬ FP.le (pair_dsq (src, dst)) (.fin (DEG_EPS K))
      then some (src, dst) else none
    | _ => none

/-- Specification-side duplicate removal: drop an element exactly when an
earlier-kept element (or one of the initially `seen` ones) is equal to it —
first occurrence wins, relative order preserved. -/
def keep_firsts [DecidableEq α] (seen : List α) : List α → List α
  | [] => []
  | a :: rest =>
    if a ∈ seen then keep_firsts seen rest
    else a :: keep_firsts (seen ++ [a]) rest

/-! ## Session constraint store (`main.rs`: `add_constraint`, `delete_constraint`) -/

/-- Embedding of `io::Georef`: affine coefficient sextuple `[A,B,D,E,C,F]` plus optional
CRS description. -/
structure Georef (K : Type) where
  affine : List K
  wkt : Option String
  deriving DecidableEq

/-- Embedding of `io::pixel_to_world` on `f64` points:
`x = A·u + B·v + C`, `y = D·u + E·v + F` with affine `[A,B,D,E,C,F]`. -/
def pixel_to_world [LinearOrderedField K] (geo : Georef K) (px : FPoint K) : FPoint K :=
  let a := geo.affine.getD 0 0
  let b := geo.affine.getD 1 0
  let d := geo.affine.getD 2 0
  let e := geo.affine.getD 3 0
  let c := geo.affine.getD 4 0
  let f := geo.affine.getD 5 0
  (FP.add (FP.add (FP.mul (.fin a) px.1) (FP.mul (.fin b) px.2)) (.fin c),
   FP.add (FP.add (FP.mul (.fin d) px.1) (FP.mul (.fin e) px.2)) (.fin f))

/-- Embedding of `main.rs::add_constraint`: when a georef is cached and the new
constraint is a `PointPair`, a missing `dst_real` is filled from
`pixel_to_world` and a missing `dst_local` from the local-meters
projection; the constraint is then appended.  `p2l` is an oracle standing
for the external `proj`-engine call `io::pixel_to_local_meters(geo, dst,
[0,0])`, with `none` covering every non-`Ok(Some(_))` outcome (in which
case the field stays empty). -/
def add_constraint [LinearOrderedField K] (geo : Option (Georef K))
    (p2l : FPoint K → Option (FPoint K)) (c : ConstraintKind K)
    (list : List (ConstraintKind K)) : List (ConstraintKind K) :=
  let c' :=
    match c, geo with
    | .pointPair i src dst dst_real dst_local w, some g =>
      let dst_real' := match dst_real with
        | none => some (pixel_to_world g dst)
        | some v => some v
      let dst_local' := match dst_local with
        | none => p2l dst
        | some v => some v
      .pointPair i src dst dst_real' dst_local' w
    | _, _ => c
  list ++ [c']

/-- Embedding of `main.rs::delete_constraint`: `list.retain(|c| c.id() != id)`. -/
def delete_constraint (i : ℕ) (list : List (ConstraintKind K)) : List (ConstraintKind K) :=
  list.filter (fun c => c.id != i)

/-- Constraint collections reachable from the empty session state through
`add_constraint` and `delete_constraint`, for a fixed environment. -/
inductive Reachable [LinearOrderedField K] (geo : Option (Georef K))
    (p2l : FPoint K → Option (FPoint K)) : List (ConstraintKind K) → Prop where
  | nil : Reachable geo p2l []
  | add {l} (c : ConstraintKind K) : Reachable geo p2l l →
      Reachable geo p2l (add_constraint geo p2l c l)
  | del {l} (i : ℕ) : Reachable geo p2l l → Reachable geo p2l (delete_constraint i l)

/-- Reachability under the extra discipline that every added constraint
carries an id not already present in the collection. -/
inductive ReachableFresh [LinearOrderedField K] (geo : Option (Georef K))
    (p2l : FPoint K → Option (FPoint K)) : List (ConstraintKind K) → Prop where
  | nil : ReachableFresh geo p2l []
  | add {l} (c : ConstraintKind K) (h : c.id ∉ l.map ConstraintKind.id) :
      ReachableFresh geo p2l l → ReachableFresh geo p2l (add_constraint geo p2l c l)
  | del {l} (i : ℕ) : ReachableFresh geo p2l l →
      ReachableFresh geo p2l (delete_constraint i l)

/-! ## `invert_similarity` at the `f64` level (C10) -/

/-- Embedding of `types::Similarity` with `FP`-modelled (`f64`) parameters
`[s, theta, tx, ty]`. -/
structure SimilarityFP (K : Type) where
  s : FP K
  theta : FP K
  tx : FP K
  ty : FP K

/-- Lift a real-valued function (cos, sin) to the `f64` model: finite
values map through `f`; cos/sin of ±∞ or NaN is NaN. -/
def FP.trig (f : K → K) : FP K → FP K
  | .fin x => .fin (f x)
  | _ => .nan

/-- Embedding of `solver::invert_similarity` at the `f64` level, the cosine/sine
implementations passed as parameters.  Mirrors the source: `inv_s = 1.0/s`,
`r_t = [[c, si], [-si, c]]`, `t_inv = (-inv_s)·(r_t·t)`, result params
`[inv_s, -θ, t_inv.x, t_inv.y]`; there is no zero-scale guard. -/
def invert_similarity_fp [LinearOrderedField K] (cosF sinF : K → K)
    (sim : SimilarityFP K) : SimilarityFP K :=
  let c := FP.trig cosF sim.theta
  let si := FP.trig sinF sim.theta
  let inv_s := FP.div (.fin 1) sim.s
  let rx := FP.add (FP.mul c sim.tx) (FP.mul si sim.ty)
  let ry := FP.add (FP.mul (FP.neg si) sim.tx) (FP.mul c sim.ty)
  ⟨inv_s, FP.neg sim.theta, FP.mul (FP.neg inv_s) rx, FP.mul (FP.neg inv_s) ry⟩

/-- Modelled from the spec: the guarded affine inversion of §4.5 has no
implementation under `src/` (only similarity inversion does).  Per the
spec it solves the 2×2 linear system via the determinant and "returns
'not invertible' when `|det(M)| < ε`". -/
def invert_affine_spec [LinearOrderedField K] (a b c d tx ty eps : K) :
    Option (K × K × K × K × K × K) :=
  let det := a * d - b * c
  if |det| < eps then none
  else
    let ia := d / det
    let ib := -b / det
    let ic := -c / det
    let idd := a / det
    some (ia, ib, ic, idd, -(ia * tx + ib * ty), -(ic * tx + idd * ty))

/-! ## `io` crate: the georeferencing resolver (C5)

The filesystem is modelled as an association list of text files, and the
TIFF decoder as a per-path store of decoded tag tables. -/

/-- A path, modelled as stem plus extension — the only path operations the
`io` crate performs are `with_extension`/`set_extension` and
`extension`. -/
structure RPath where
  stem : String
  ext : String
  deriving DecidableEq, Repr

/-- Embedding of `Path::set_extension`. -/
def RPath.set_extension (p : RPath) (e : String) : RPath := ⟨p.stem, e⟩

/-- The text files visible to the `io` crate: path ↦ content. -/
abbrev Fs := List (RPath × String)

/-- Embedding of `std::fs::read_to_string`; `none` models any `Err` (missing or
unreadable file), which the candidate loops skip over. -/
def read_to_string (fs : Fs) (p : RPath) : Option String :=
  (fs.find? (fun q => q.1 = p)).map Prod.snd

/-- ASCII lowercasing of one character (`u8::to_ascii_lowercase`). -/
def lower_char (c : Char) : Char :=
  if 'A' ≤ c ∧ c ≤ 'Z' then Char.ofNat (c.toNat + 32) else c

/-- Embedding of `str::to_ascii_lowercase`. -/
def ascii_lower (s : String) : String := ⟨s.data.map lower_char⟩

/-- Split a character list at `'\n'` separators. -/
def split_nl : List Char → List (List Char)
  | [] => [[]]
  | c :: rest =>
    let r := split_nl rest
    if c = '\n' then [] :: r
    else
      match r with
      | [] => [[c]]
      | h :: t => (c :: h) :: t

/-- Strip one trailing `'\r'`. -/
def strip_cr (l : List Char) : List Char :=
  if l.getLast? = some '\r' then l.dropLast else l

/-- Embedding of `str::lines`: split on `'\n'`; a trailing newline terminates the last
line rather than opening an empty one, and a trailing `'\r'` is stripped
from each line. -/
def lines (s : String) : List String :=
  let parts := split_nl s.data
  let parts := if parts.getLast? = some [] then parts.dropLast else parts
  parts.map (fun l => String.mk (strip_cr l))

/-- Is this an ASCII whitespace character (as far as `str::trim` matters
for world files)? -/
def is_ws (c : Char) : Bool := c = ' ' ∨ c = '\t' ∨ c = '\r' ∨ c = '\n'

/-- Embedding of `str::trim`. -/
def trim_str (s : String) : String :=
  String.mk (((s.data.dropWhile is_ws).reverse.dropWhile is_ws).reverse)

/-- Decimal digits as a natural number; `none` when empty or containing a
non-digit. -/
def parseNatDigits (cs : List Char) : Option ℕ :=
  if cs ≠ [] ∧ cs.all (fun c => c.isDigit)
  then some (cs.foldl (fun a c => a * 10 + (c.toNat - 48)) 0)
  else none

/-- A model of `str::parse::<f64>` sufficient for the resolver claims:
optional sign, integer digits, optional fractional digits.  Malformed
numeric text — in particular non-numeric text such as `"abc"` — parses to
`none`, as in Rust. -/
def parse_f64 (K : Type) [Field K] (s : String) : Option K :=
  let cs := s.data
  let signed : Bool × List Char :=
    match cs with
    | '-' :: t => (true, t)
    | '+' :: t => (false, t)
    | t => (false, t)
  let sign : K := if signed.1 then -1 else 1
  match signed.2.span (fun c => c ≠ '.') with
  | (i, []) => (parseNatDigits i).map (fun n => sign * (n : K))
  | (i, _ :: f) =>
    if '.' ∈ f then none
    else
      match parseNatDigits i, parseNatDigits f with
      | some a, some b => some (sign * ((a : K) + (b : K) / (10 : K) ^ f.length))
      | _, _ => none

/-- The world-file parsing of the source: `vals = [0.0; 6]`, then for each
of the first six lines `vals[i] = line.trim().parse::<f64>()?` — a parse
failure on any of them propagates (`none` here); fewer than six lines
leave the remaining entries `0`. -/
def parse_world (K : Type) [Field K] (s : String) : Option (List K) :=
  (((lines s).take 6).mapM (fun l => parse_f64 K (trim_str l))).map
    (fun vs => vs ++ List.replicate (6 - vs.length) 0)

/-- The error kinds the georeferencing resolver can propagate. -/
inductive IoErr where
  | parseFloat
  | fileOpen
  deriving DecidableEq, Repr

/-- The candidate world-file extensions for a (lowercased) image
extension, ending with the generic fallback `wld`. -/
def world_candidates (ext : String) : List String :=
  (match ext with
   | "tif" | "tiff" => ["tfw"]
   | "jpg" | "jpeg" => ["jgw", "j2w"]
   | "png" => ["pgw"]
   | "gif" => ["gfw"]
   | "bmp" => ["bpw"]
   | _ => []) ++ ["wld"]

/-- The candidate loop of `read_world_file_for_image`: the first candidate
whose sidecar file exists is parsed; a malformed numeric line in it
propagates `parseFloat` (the `?` in the source); missing candidates are
skipped. -/
def world_file_loop (K : Type) [Field K] (fs : Fs) (stem : RPath) :
    List String → Except IoErr (Option (List K))
  | [] => .ok none
  | wext :: rest =>
    match read_to_string fs (stem.set_extension wext) with
    | some s =>
      match parse_world K s with
      | some vals => .ok (some vals)
      | none => .error .parseFloat
    | none => world_file_loop K fs stem rest

/-- Embedding of `io::read_world_file_for_image`. -/
def read_world_file_for_image (K : Type) [Field K] (fs : Fs) (image_path : RPath) :
    Except IoErr (Option (List K)) :=
  world_file_loop K fs image_path (world_candidates (ascii_lower image_path.ext))

/-- Embedding of `io::read_prj_for_image`: first found among the `.prj`/`.wkt` case
variants. -/
def read_prj_for_image (fs : Fs) (image_path : RPath) : Option String :=
  ["prj", "PRJ", "Prj", "wkt", "WKT"].findSome? fun e =>
    read_to_string fs (image_path.set_extension e)

/-- The decoded tag tables of a TIFF file: what `get_tag_f64_vec` /
`get_tag_u16_vec` return per numeric tag id.  `none` models any tag-read
failure — the code swallows those with `.ok()`. -/
structure TiffDec (K : Type) where
  f64_tags : ℕ → Option (List K)
  u16_tags : ℕ → Option (List ℕ)

/-- The TIFF files of the environment: `none` models `File::open` failing,
`some none` models `Decoder::new` failing, `some (some dec)` a decoded
file. -/
abbrev TiffStore (K : Type) := RPath → Option (Option (TiffDec K))

/-- Embedding of `io::geotiff_epsg`: scan the GeoKey directory (tag 34735) for the
first projected- (3072) or geographic-CRS (2048) key stored inline and
render it as `EPSG:<code>`. -/
def geotiff_epsg (dec : TiffDec K) : Option String :=
  match dec.u16_tags 34735 with
  | none => none
  | some dir =>
    if dir.length < 4 then none
    else
      let num_keys := dir.getD 3 0
      if dir.length < 4 + num_keys * 4 then none
      else
        ((List.range num_keys).findSome? (fun i =>
          let base := 4 + i * 4
          if (dir.getD base 0 = 3072 ∨ dir.getD base 0 = 2048) ∧ dir.getD (base + 1) 0 = 0
          then some (dir.getD (base + 3) 0) else none)).map
          (fun c => "EPSG:" ++ toString c)

/-- Embedding of `io::geotiff_raster_type`: GeoKey 1025 (1 = PixelIsArea,
2 = PixelIsPoint). -/
def geotiff_raster_type (dec : TiffDec K) : Option ℕ :=
  match dec.u16_tags 34735 with
  | none => none
  | some dir =>
    if dir.length < 4 then none
    else
      let num_keys := dir.getD 3 0
      if dir.length < 4 + num_keys * 4 then none
      else
        (List.range num_keys).findSome? (fun i =>
          let base := 4 + i * 4
          if dir.getD base 0 = 1025 ∧ dir.getD (base + 1) 0 = 0
          then some (dir.getD (base + 3) 0) else none)

/-- The pixel-scale + tiepoint fallback of `read_geotiff_georeferencing`:
`A = sx`, `E = -sy`, `B = D = 0`, translation back-solved from the first
tiepoint, with a half-pixel origin shift unless GeoKey 1025 says
PixelIsPoint (2).  (`0.5` is written `1/2`.) -/
def geotiff_scale_tie [LinearOrderedField K] (dec : TiffDec K) : Option (Georef K) :=
  match dec.f64_tags 33550, dec.f64_tags 33922 with
  | some scale, some tie =>
    if 2 ≤ scale.length ∧ 6 ≤ tie.length then
      let sx := scale.getD 0 0
      let sy := scale.getD 1 0
      let i := tie.getD 0 0
      let j := tie.getD 1 0
      let x := tie.getD 3 0
      let y := tie.getD 4 0
      let a := sx
      let e := -sy
      let b : K := 0
      let d : K := 0
      let c0 := x - a * i - b * j
      let f0 := y - d * i - e * j
      let cf :=
        match geotiff_raster_type dec with
        | some 2 => (c0, f0)
        | _ => (c0 + (1 / 2) * a, f0 + (1 / 2) * e)
      some ⟨[a, b, d, e, cf.1, cf.2], geotiff_epsg dec⟩
    else none
  | _, _ => none

/-- Embedding of `io::read_geotiff_georeferencing`: `File::open` failure propagates
(`?` in the source), `Decoder::new` failure returns `Ok(None)`, and all
tag decode failures degrade to the next fallback or `Ok(None)`.  A 16-long
model-transformation tag (34264) is preferred; else the pixel-scale +
tiepoint pair. -/
def read_geotiff_georeferencing (K : Type) [LinearOrderedField K]
    (tiffs : TiffStore K) (tiff_path : RPath) : Except IoErr (Option (Georef K)) :=
  match tiffs tiff_path with
  | none => .error .fileOpen
  | some none => .ok none
  | some (some dec) =>
    match dec.f64_tags 34264 with
    | some m =>
      if m.length = 16 then
        .ok (some ⟨[m.getD 0 0, m.getD 1 0, m.getD 4 0, m.getD 5 0, m.getD 3 0, m.getD 7 0],
          geotiff_epsg dec⟩)
      else .ok (geotiff_scale_tie dec)
    | none => .ok (geotiff_scale_tie dec)

/-- Embedding of `io::read_georeferencing_for_image`: sidecar world file first (its
errors propagate through `?`), then for `tif`/`tiff` the embedded-tag
fallback. -/
def read_georeferencing_for_image (K : Type) [LinearOrderedField K] (fs : Fs)
    (tiffs : TiffStore K) (image_path : RPath) : Except IoErr (Option (Georef K)) :=
  match read_world_file_for_image K fs image_path with
  | .error e => .error e
  | .ok (some aff) => .ok (some ⟨aff, read_prj_for_image fs image_path⟩)
  | .ok none =>
    let ext := ascii_lower image_path.ext
    if ext = "tif" ∨ ext = "tiff" then
      match read_geotiff_georeferencing K tiffs image_path with
      | .error e => .error e
      | .ok (some g) => .ok (some g)
      | .ok none => .ok none
    else .ok none

/-! ## Theorems settling the claims -/

/-- C3.  `fit_similarity_from_pairs` fails with the insufficient-data error
exactly when given fewer than 2 pairs; fails with the degenerate-geometry
error exactly when (having ≥ 2 pairs) the sum of squared centered-source
norms is ≤ machine epsilon (the `!is_finite` disjunct cannot fire for real
inputs); and otherwise returns a fitted similarity. -/
theorem claim_C3 (pairs : List (Vec2 ℝ × Vec2 ℝ)) :
    (fit_similarity_from_pairs pairs = .error .insufficientData ↔ pairs.length < 2) ∧
    (fit_similarity_from_pairs pairs = .error .degenerateGeometry ↔
      (2 ≤ pairs.length ∧ sum_centered_src_sq_norm pairs ≤ f64_EPSILON)) ∧
    ((∃ sim, fit_similarity_from_pairs pairs = .ok sim) ↔
      (2 ≤ pairs.length ∧ f64_EPSILON < sum_centered_src_sq_norm pairs)) := by
  rcases lt_or_ge pairs.length 2 with h1 | h1
  · have h1' : ¬ 2 ≤ pairs.length := by omega
    simp [fit_similarity_from_pairs, h1, h1']
  · have h1' : ¬ pairs.length < 2 := by omega
    rcases le_or_lt (sum_centered_src_sq_norm pairs) f64_EPSILON with h2 | h2
    · simp [fit_similarity_from_pairs, h1, h1', h2]
    · have h2' : ¬ sum_centered_src_sq_norm pairs ≤ f64_EPSILON := not_le.mpr h2
      simp [fit_similarity_from_pairs, h1, h1', h2, h2']

/-- Evaluation fact: `atan2(0, 1) = 0`. -/
theorem atan2_zero_one : atan2 0 1 = 0 := by
  unfold atan2
  have hone : (⟨1, 0⟩ : ℂ) = 1 := by apply Complex.ext <;> simp
  rw [hone, Complex.arg_one]

/-- C2, counterexample.  For `a = (s=2, θ=0, t=(0,0))` and
`b = (s=1, θ=0, t=(1,0))`, the code's `compose_similarity(a, b)` ("a then
b") produces translation x-component `1` (`= sb·R(θb)·ta + tb`), while the
spec formula `t = sa·R(θa)·tb + ta` gives `2`.  And for `θa = θb = π`, the
recovered angle is `atan2`-normalised to `0`, not the spec's `θa+θb = 2π`. -/
theorem claim_C2_counterexample :
    ((compose_similarity ⟨2, 0, 0, 0⟩ ⟨1, 0, 1, 0⟩).tx = 1 ∧
     (compose_similarity_spec ⟨2, 0, 0, 0⟩ ⟨1, 0, 1, 0⟩).tx = 2 ∧ (1 : ℝ) ≠ 2) ∧
    ((compose_similarity ⟨1, Real.pi, 0, 0⟩ ⟨1, Real.pi, 0, 0⟩).theta = 0 ∧
     (compose_similarity_spec ⟨1, Real.pi, 0, 0⟩ ⟨1, Real.pi, 0, 0⟩).theta
        = Real.pi + Real.pi ∧
     Real.pi + Real.pi ≠ 0) := by
  refine ⟨⟨?_, ?_, by norm_num⟩, ⟨?_, rfl, by positivity⟩⟩
  · simp [compose_similarity, rot, Mat2.mulVec, Mat2.mul, Vec2.smul, Vec2.add]
  · simp [compose_similarity_spec, rot, Mat2.mulVec, Mat2.mul, Vec2.smul, Vec2.add]
  · show atan2 ((rot Real.pi).mul (rot Real.pi)).m21 ((rot Real.pi).mul (rot Real.pi)).m11 = 0
    have e21 : ((rot Real.pi).mul (rot Real.pi)).m21 = 0 := by
      simp [rot, Mat2.mul]
    have e11 : ((rot Real.pi).mul (rot Real.pi)).m11 = 1 := by
      simp [rot, Mat2.mul]
    rw [e21, e11, atan2_zero_one]

/-- C2, amended.  Composing `a` then `b` with `compose_similarity(a, b)`
yields scale `s = sb·sa`, translation `t = sb·R(θb)·ta + tb` (not
`sa·R(θa)·tb + ta`), and angle `θ = atan2(sin(θa+θb), cos(θa+θb))`, i.e.
`θa+θb` renormalised into `(-π, π]`. -/
theorem claim_C2_amended (a b : Similarity) :
    compose_similarity a b =
      ⟨b.s * a.s,
       atan2 (Real.sin (a.theta + b.theta)) (Real.cos (a.theta + b.theta)),
       ((Vec2.smul b.s ((rot b.theta).mulVec ⟨a.tx, a.ty⟩)).add ⟨b.tx, b.ty⟩).x,
       ((Vec2.smul b.s ((rot b.theta).mulVec ⟨a.tx, a.ty⟩)).add ⟨b.tx, b.ty⟩).y⟩ := by
  refine Similarity.ext ?_ ?_ rfl rfl
  · rfl
  · show atan2 _ _ = atan2 _ _
    unfold atan2
    congr 1
    apply Complex.ext <;>
      simp [Mat2.mul, rot, Real.cos_add, Real.sin_add] <;> ring

/-- C8.  For any similarity `t` with nonzero scale, `compose(t, invert(t))`
applied to an arbitrary point returns that point within `1e-6` (here:
exactly, hence within the tolerance). -/
theorem claim_C8 (t : Similarity) (p : Vec2 ℝ) (h : t.s ≠ 0) :
    (((compose_similarity t (invert_similarity t)).apply p).sub p).norm ≤ 1e-6 := by
  have key : compose_similarity t (invert_similarity t) = ⟨1, 0, 0, 0⟩ := by
    refine Similarity.ext ?_ ?_ ?_ ?_
    · show (1 / t.s) * t.s = 1
      field_simp
    · show atan2 _ _ = 0
      have h21 : Real.sin (invert_similarity t).theta * Real.cos t.theta +
          Real.cos (invert_similarity t).theta * Real.sin t.theta = 0 := by
        simp [invert_similarity]; ring
      have h11 : Real.cos (invert_similarity t).theta * Real.cos t.theta +
          -Real.sin (invert_similarity t).theta * Real.sin t.theta = 1 := by
        simp [invert_similarity]
        rw [← Real.cos_sq_add_sin_sq t.theta]; ring
      show atan2 ((rot (invert_similarity t).theta).mul (rot t.theta)).m21
          ((rot (invert_similarity t).theta).mul (rot t.theta)).m11 = 0
      have e21 : ((rot (invert_similarity t).theta).mul (rot t.theta)).m21 = 0 := by
        simpa [rot, Mat2.mul] using h21
      have e11 : ((rot (invert_similarity t).theta).mul (rot t.theta)).m11 = 1 := by
        simpa [rot, Mat2.mul] using h11
      rw [e21, e11, atan2_zero_one]
    · show (invert_similarity t).s *
          ((rot (invert_similarity t).theta).mulVec ⟨t.tx, t.ty⟩).x +
          (invert_similarity t).tx = 0
      simp [invert_similarity, rot, Mat2.mulVec, Vec2.smul]
    · show (invert_similarity t).s *
          ((rot (invert_similarity t).theta).mulVec ⟨t.tx, t.ty⟩).y +
          (invert_similarity t).ty = 0
      simp [invert_similarity, rot, Mat2.mulVec, Vec2.smul]
  have happ : (compose_similarity t (invert_similarity t)).apply p = p := by
    rw [key]
    refine Vec2.ext ?_ ?_ <;>
      simp [Similarity.apply, rot, Vec2.smul, Mat2.mulVec, Vec2.add]
  rw [happ]
  have : (p.sub p).norm = 0 := by
    simp [Vec2.sub, Vec2.norm, Vec2.norm_squared]
  rw [this]
  norm_num

/-- C8, witness: the theorem at `t = (s=2, θ=0, t=(3,4))`, `p = (1, 5)`. -/
theorem claim_C8_witness :
    (2 : ℝ) ≠ 0 ∧
    ((((compose_similarity ⟨2, 0, 3, 4⟩ (invert_similarity ⟨2, 0, 3, 4⟩)).apply
        ⟨1, 5⟩).sub ⟨1, 5⟩).norm ≤ 1e-6) :=
  ⟨by norm_num, claim_C8 ⟨2, 0, 3, 4⟩ ⟨1, 5⟩ (by norm_num)⟩

/-- C1, counterexample.  With the identity similarity and the pair list
`[((0,0),(0,3)), ((0,0),(0,1))]` the residuals in input order are `[3, 1]`,
but `metrics_similarity` returns the residual list `[1, 3]`: its 0-th entry
`1` is not the residual `3` of the 0-th pair, so the returned list is not
in input-pair order. -/
theorem claim_C1_counterexample :
    (metrics_similarity ⟨1, 0, 0, 0⟩ [((0, 0), (0, 3)), ((0, 0), (0, 1))]).2.2 = [1, 3] ∧
    (((Similarity.apply ⟨1, 0, 0, 0⟩ ⟨0, 0⟩).sub ⟨0, 3⟩).norm = 3) ∧
    (1 : ℝ) ≠ 3 := by
  have e1 : ((Similarity.apply ⟨1, 0, 0, 0⟩ ⟨0, 0⟩).sub (⟨0, 3⟩ : Vec2 ℝ)).norm = 3 := by
    simp [Similarity.apply, rot, Vec2.smul, Mat2.mulVec, Vec2.add, Vec2.sub,
      Vec2.norm, Vec2.norm_squared]
  have e2 : ((Similarity.apply ⟨1, 0, 0, 0⟩ ⟨0, 0⟩).sub (⟨0, 1⟩ : Vec2 ℝ)).norm = 1 := by
    simp [Similarity.apply, rot, Vec2.smul, Mat2.mulVec, Vec2.add, Vec2.sub,
      Vec2.norm, Vec2.norm_squared]
  refine ⟨?_, e1, by norm_num⟩
  have hmap : ([((0, 0), (0, 3)), ((0, 0), (0, 1))] :
      List ((ℝ × ℝ) × (ℝ × ℝ))).map (fun pr =>
        ((Similarity.apply ⟨1, 0, 0, 0⟩ ⟨pr.1.1, pr.1.2⟩).sub ⟨pr.2.1, pr.2.2⟩).norm)
      = [3, 1] := by
    simp only [List.map_cons, List.map_nil]
    rw [e1, e2]
  unfold metrics_similarity
  rw [hmap]
  unfold summarize_residuals
  rw [if_neg (by simp)]
  show List.insertionSort _ [3, 1] = [1, 3]
  norm_num [List.insertionSort, List.orderedInsert]

/-- C1, amended.  The residual list returned by `metrics_similarity` is the
ascending (stable) sort of the residuals `‖apply(t, src_i) − dst_i‖` of the
input pairs — same multiset, but not in input order — and the RMSE is the
square root of the mean of the squared residuals. -/
theorem claim_C1_amended (t : Similarity) (pairs : List ((ℝ × ℝ) × (ℝ × ℝ)))
    (hne : pairs ≠ []) :
    ((metrics_similarity t pairs).2.2).Perm
      (pairs.map (fun pr =>
        ((t.apply ⟨pr.1.1, pr.1.2⟩).sub ⟨pr.2.1, pr.2.2⟩).norm)) ∧
    List.Sorted (· ≤ ·) ((metrics_similarity t pairs).2.2) ∧
    (metrics_similarity t pairs).1 =
      Real.sqrt (((pairs.map (fun pr =>
          ((t.apply ⟨pr.1.1, pr.1.2⟩).sub ⟨pr.2.1, pr.2.2⟩).norm)).map
        (fun r => r * r)).sum / (pairs.length : ℝ)) := by
  have hres : pairs.map (fun pr =>
      ((t.apply ⟨pr.1.1, pr.1.2⟩).sub ⟨pr.2.1, pr.2.2⟩).norm) ≠ [] := by
    simpa using hne
  unfold metrics_similarity summarize_residuals
  rw [if_neg hres]
  exact ⟨List.perm_insertionSort _ _, List.sorted_insertionSort _ _, by
    rw [List.length_map]⟩

/-- C1, witness for the amended theorem: identity transform, one pair. -/
theorem claim_C1_witness :
    ([((0, 0), (0, 1))] : List ((ℝ × ℝ) × (ℝ × ℝ))) ≠ [] ∧
    (((metrics_similarity ⟨1, 0, 0, 0⟩ [((0, 0), (0, 1))]).2.2).Perm
      ([((0, 0), (0, 1))].map (fun pr =>
        ((Similarity.apply ⟨1, 0, 0, 0⟩ ⟨pr.1.1, pr.1.2⟩).sub ⟨pr.2.1, pr.2.2⟩).norm)) ∧
    List.Sorted (· ≤ ·) ((metrics_similarity ⟨1, 0, 0, 0⟩ [((0, 0), (0, 1))]).2.2) ∧
    (metrics_similarity ⟨1, 0, 0, 0⟩ [((0, 0), (0, 1))]).1 =
      Real.sqrt ((([((0, 0), (0, 1))].map (fun pr =>
          ((Similarity.apply ⟨1, 0, 0, 0⟩ ⟨pr.1.1, pr.1.2⟩).sub ⟨pr.2.1, pr.2.2⟩).norm)).map
        (fun r => r * r)).sum / (([((0, 0), (0, 1))] : List ((ℝ × ℝ) × (ℝ × ℝ))).length : ℝ))) :=
  ⟨by simp, claim_C1_amended ⟨1, 0, 0, 0⟩ [((0, 0), (0, 1))] (by simp)⟩

/-- C7.  For a non-empty residual list, the p90 reported by
`summarize_residuals` is the element at index
`min(⌊n·0.9⌋, n−1)` of the residuals sorted ascending (nearest-rank, not
interpolated), where "sorted ascending" is characterised abstractly: any
sorted permutation of the input. -/
theorem claim_C7 (rs srt : List ℝ) (hne : rs ≠ [])
    (hsorted : List.Sorted (· ≤ ·) srt) (hperm : rs.Perm srt) :
    (summarize_residuals rs).2.1 =
      srt.getD (min (Int.toNat ⌊(rs.length : ℝ) * 0.9⌋) (rs.length - 1)) 0 := by
  have hs : rs.insertionSort (· ≤ ·) = srt :=
    List.eq_of_perm_of_sorted ((List.perm_insertionSort _ rs).trans hperm)
      (List.sorted_insertionSort _ rs) hsorted
  unfold summarize_residuals
  rw [if_neg hne]
  show (rs.insertionSort (· ≤ ·)).getD _ 0 = _
  rw [hs]

/-- C7, witness: residuals `[1..10]` give p90 index `min(⌊10·0.9⌋, 9) = 9`
and p90 value `10`. -/
theorem claim_C7_witness :
    (([1, 2, 3, 4, 5, 6, 7, 8, 9, 10] : List ℝ) ≠ [] ∧
      List.Sorted (· ≤ ·) ([1, 2, 3, 4, 5, 6, 7, 8, 9, 10] : List ℝ)) ∧
    (summarize_residuals [1, 2, 3, 4, 5, 6, 7, 8, 9, 10]).2.1 = 10 := by
  have hne : ([1, 2, 3, 4, 5, 6, 7, 8, 9, 10] : List ℝ) ≠ [] := by simp
  have hsorted : List.Sorted (· ≤ ·) ([1, 2, 3, 4, 5, 6, 7, 8, 9, 10] : List ℝ) := by
    norm_num [List.sorted_cons]
  refine ⟨⟨hne, hsorted⟩, ?_⟩
  rw [claim_C7 [1, 2, 3, 4, 5, 6, 7, 8, 9, 10] [1, 2, 3, 4, 5, 6, 7, 8, 9, 10]
    hne hsorted (List.Perm.refl _)]
  have hfloor : ⌊(([1, 2, 3, 4, 5, 6, 7, 8, 9, 10] : List ℝ).length : ℝ) * 0.9⌋ = 9 := by
    rw [show ((([1, 2, 3, 4, 5, 6, 7, 8, 9, 10] : List ℝ).length : ℝ) * 0.9) = ((9 : ℤ) : ℝ)
      by norm_num]
    exact Int.floor_intCast 9
  rw [hfloor]
  norm_num
  rfl

/-- C6.  Converting toward or from `MapMillimeters` with the map-scale
denominator absent is a numeric no-op (factor 1) rather than a failure:
rmse, p90, all residuals and id-residuals are unchanged, the unit tag is
still updated to the target, and the stored map-scale denominator is
modified only when the target unit is `MapMillimeters` (where it becomes
the `none` that was passed). -/
theorem claim_C6 [Field K] (qm : QualityMetrics K) (pixel_size : K)
    (target : ErrorUnit) (h : qm.unit = .mapMillimeters ∨ target = .mapMillimeters) :
    qm.convert_units pixel_size none target =
      { qm with unit := target,
                map_scale := if target = .mapMillimeters then none else qm.map_scale } := by
  obtain ⟨r, p90, res, rbi, w, u, ms⟩ := qm
  cases u <;> cases target <;> simp_all [QualityMetrics.convert_units]

/-- C6, witness: a concrete metrics record over `ℚ`, `Pixels →
MapMillimeters` with no map scale. -/
theorem claim_C6_witness :
    ((QualityMetrics.mk (K := ℚ) 1 2 [3] [(5, 7)] [] .pixels (some 4)).unit
        = .mapMillimeters ∨ (ErrorUnit.mapMillimeters = .mapMillimeters)) ∧
    (QualityMetrics.mk (K := ℚ) 1 2 [3] [(5, 7)] [] .pixels (some 4)).convert_units
        9 none .mapMillimeters =
      { QualityMetrics.mk (K := ℚ) 1 2 [3] [(5, 7)] [] .pixels (some 4) with
          unit := ErrorUnit.mapMillimeters,
          map_scale := if ErrorUnit.mapMillimeters = ErrorUnit.mapMillimeters then none
            else (QualityMetrics.mk (K := ℚ) 1 2 [3] [(5, 7)] [] .pixels (some 4)).map_scale } :=
  ⟨Or.inr rfl,
    claim_C6 (QualityMetrics.mk (K := ℚ) 1 2 [3] [(5, 7)] [] .pixels (some 4)) 9
      .mapMillimeters (Or.inr rfl)⟩

/-- On pairs whose four coordinates are finite, the `f64` `==` comparison
of the duplicate filter coincides with exact structural equality. -/
theorem fpair_eq_iff_eq [LinearOrderedField K] (p q : FPoint K × FPoint K)
    (hp : pair_finite p = true) (hq : pair_finite q = true) :
    fpair_eq p q = true ↔ p = q := by
  obtain ⟨⟨a1, a2⟩, b1, b2⟩ := p
  obtain ⟨⟨c1, c2⟩, d1, d2⟩ := q
  simp only [pair_finite, Bool.and_eq_true] at hp hq
  cases a1 <;> cases a2 <;> cases b1 <;> cases b2 <;> simp_all [FP.isFinite]
  cases c1 <;> cases c2 <;> cases d1 <;> cases d2 <;>
    simp_all [FP.isFinite, fpair_eq, FP.beq, and_assoc]

/-- The Boolean duplicate scan of the loop agrees with list membership when
everything in sight is finite. -/
theorem any_fpair_eq [LinearOrderedField K] (out : List (FPoint K × FPoint K))
    (pr : FPoint K × FPoint K) (hout : ∀ p ∈ out, pair_finite p = true)
    (hpr : pair_finite pr = true) :
    (out.any (fun p => fpair_eq p pr)) = true ↔ pr ∈ out := by
  rw [List.any_eq_true]
  constructor
  · rintro ⟨p, hp, he⟩
    rw [fpair_eq_iff_eq p pr (hout p hp) hpr] at he
    exact he ▸ hp
  · intro hm
    exact ⟨pr, hm, (fpair_eq_iff_eq pr pr (hout pr hm) hpr).mpr rfl⟩

/-- Loop invariant: with only finite pairs accumulated so far, the filter
loop extends `out` by the spec-side candidates deduplicated
first-occurrence-wins against everything already kept. -/
theorem pairs_loop_eq [LinearOrderedField K] [DecidableEq K] (cs : List (ConstraintKind K)) :
    ∀ out : List (FPoint K × FPoint K), (∀ p ∈ out, pair_finite p = true) →
      pairs_loop cs out = out ++ keep_firsts out (spec_candidates cs) := by
  induction cs with
  | nil => intro out _; simp [pairs_loop, spec_candidates, keep_firsts]
  | cons c rest ih =>
    intro out hout
    cases c with
    | pointPair i src dst dr dl w =>
      by_cases hfin : pair_finite (src, dst) = true
      · by_cases hdeg : FP.le (pair_dsq (src, dst)) (.fin (DEG_EPS K)) = true
        · have : spec_candidates (ConstraintKind.pointPair i src dst dr dl w :: rest)
              = spec_candidates rest := by
            simp [spec_candidates, hfin, hdeg]
          rw [this] at *
          simpa [pairs_loop, hfin, hdeg] using ih out hout
        · have hcand : spec_candidates (ConstraintKind.pointPair i src dst dr dl w :: rest)
              = (src, dst) :: spec_candidates rest := by
            simp [spec_candidates, hfin, hdeg]
          rw [hcand]
          by_cases hdup : (out.any (fun p => fpair_eq p (src, dst))) = true
          · have hmem : (src, dst) ∈ out := (any_fpair_eq out _ hout hfin).mp hdup
            rw [show pairs_loop (ConstraintKind.pointPair i src dst dr dl w :: rest) out
                = pairs_loop rest out by simp [pairs_loop, hfin, hdeg, hdup]]
            rw [ih out hout, keep_firsts, if_pos hmem]
          · have hmem : (src, dst) ∉ out := fun hm =>
              hdup ((any_fpair_eq out _ hout hfin).mpr hm)
            rw [show pairs_loop (ConstraintKind.pointPair i src dst dr dl w :: rest) out
                = pairs_loop rest (out ++ [(src, dst)]) by
              simp [pairs_loop, hfin, hdeg, hdup]]
            have hout' : ∀ p ∈ out ++ [(src, dst)], pair_finite p = true := by
              intro p hp
              rcases List.mem_append.mp hp with h | h
              · exact hout p h
              · simpa using (List.mem_singleton.mp h) ▸ hfin
            rw [ih (out ++ [(src, dst)]) hout', keep_firsts, if_neg hmem]
            simp
      · have : spec_candidates (ConstraintKind.pointPair i src dst dr dl w :: rest)
            = spec_candidates rest := by
          simp [spec_candidates, hfin]
        rw [this]
        simpa [pairs_loop, hfin] using ih out hout
    | point i p w => simpa [pairs_loop, spec_candidates] using ih out hout
    | polyline i ps w => simpa [pairs_loop, spec_candidates] using ih out hout
    | polygon i ps w => simpa [pairs_loop, spec_candidates] using ih out hout
    | anisotropicPin i p s1 s2 a => simpa [pairs_loop, spec_candidates] using ih out hout
    | anchor i p => simpa [pairs_loop, spec_candidates] using ih out hout

/-- C4.  `pairs_from_constraints` returns exactly the (src, dst) pairs of
`PointPair` constraints whose four coordinates are all finite and whose
squared src–dst distance exceeds `1e-24`, with exact duplicates of an
earlier-kept pair dropped (first occurrence wins), preserving input
relative order; it is a total function (never an error). -/
theorem claim_C4 [LinearOrderedField K] [DecidableEq K] (constraints : List (ConstraintKind K)) :
    pairs_from_constraints constraints = keep_firsts [] (spec_candidates constraints) := by
  simpa [pairs_from_constraints] using
    pairs_loop_eq constraints [] (by intro p hp; cases hp)

/-- Lemma: `add_constraint` appends one constraint and never changes ids: the id
multiset grows by exactly the added constraint's id. -/
theorem add_constraint_ids [LinearOrderedField K] (geo : Option (Georef K))
    (p2l : FPoint K → Option (FPoint K)) (c : ConstraintKind K)
    (l : List (ConstraintKind K)) :
    (add_constraint geo p2l c l).map ConstraintKind.id
      = l.map ConstraintKind.id ++ [c.id] := by
  unfold add_constraint
  cases c <;> cases geo <;> simp [ConstraintKind.id]

/-- C9, counterexample.  The collection `[Anchor(id=1), Anchor(id=1)]` is
reachable from the empty collection by two `add_constraint` calls (the
code never enforces id uniqueness on add), and its ids are not pairwise
distinct. -/
theorem claim_C9_counterexample :
    Reachable (K := ℚ) none (fun _ => none)
      [ConstraintKind.anchor 1 (.fin 0, .fin 0), ConstraintKind.anchor 1 (.fin 0, .fin 0)] ∧
    ¬ (([ConstraintKind.anchor (K := ℚ) 1 (.fin 0, .fin 0),
        ConstraintKind.anchor 1 (.fin 0, .fin 0)]).map ConstraintKind.id).Nodup := by
  constructor
  · have h0 : Reachable (K := ℚ) none (fun _ => none) [] := Reachable.nil
    have h1 := Reachable.add (ConstraintKind.anchor 1 (.fin 0, .fin 0)) h0
    have h2 := Reachable.add (ConstraintKind.anchor 1 (.fin 0, .fin 0)) h1
    simpa [add_constraint] using h2
  · simp [ConstraintKind.id]

/-- C9, amended.  Deletion by id removes exactly the constraints carrying
that id; and pairwise-distinct ids are an invariant of the add/delete
operations only under the discipline that every added constraint carries a
fresh id — `add_constraint` itself does not enforce uniqueness (see the
counterexample). -/
theorem claim_C9_amended [LinearOrderedField K] :
    (∀ (geo : Option (Georef K)) (p2l : FPoint K → Option (FPoint K))
        (l : List (ConstraintKind K)), ReachableFresh geo p2l l →
          (l.map ConstraintKind.id).Nodup) ∧
    (∀ (i : ℕ) (l : List (ConstraintKind K)) (c : ConstraintKind K),
        c ∈ delete_constraint i l ↔ c ∈ l ∧ c.id ≠ i) := by
  constructor
  · intro geo p2l l h
    induction h with
    | nil => simp
    | add c hfresh _ ih =>
      rw [add_constraint_ids]
      simp only [List.nodup_append, List.nodup_cons, List.not_mem_nil, not_false_iff,
        List.nodup_nil, and_true, true_and]
      exact ⟨ih, fun a ha hmem => by
        cases List.mem_singleton.mp hmem
        exact hfresh ha⟩
    | del i _ ih =>
      exact List.Nodup.sublist ((List.filter_sublist _).map ConstraintKind.id) ih
  · intro i l c
    simp [delete_constraint, List.mem_filter]

/-- C9, witness for the amended theorem: the singleton collection
`[Anchor(id=1)]` built by one fresh add; deleting id 2 keeps it. -/
theorem claim_C9_witness :
    ReachableFresh (K := ℚ) none (fun _ => none)
      [ConstraintKind.anchor 1 (.fin 0, .fin 0)] ∧
    (([ConstraintKind.anchor (K := ℚ) 1 (.fin 0, .fin 0)]).map ConstraintKind.id).Nodup ∧
    (ConstraintKind.anchor (K := ℚ) 1 (.fin 0, .fin 0) ∈
        delete_constraint 2 [ConstraintKind.anchor (K := ℚ) 1 (.fin 0, .fin 0)] ↔
      ConstraintKind.anchor (K := ℚ) 1 (.fin 0, .fin 0) ∈
        [ConstraintKind.anchor (K := ℚ) 1 (.fin 0, .fin 0)] ∧
      (ConstraintKind.anchor (K := ℚ) 1 (.fin 0, .fin 0)).id ≠ 2) := by
  have hr : ReachableFresh (K := ℚ) none (fun _ => none)
      [ConstraintKind.anchor 1 (.fin 0, .fin 0)] := by
    have h0 : ReachableFresh (K := ℚ) none (fun _ => none) [] := ReachableFresh.nil
    have h1 := ReachableFresh.add (ConstraintKind.anchor 1 (.fin 0, .fin 0)) (by simp) h0
    simpa [add_constraint] using h1
  exact ⟨hr, claim_C9_amended.1 none (fun _ => none) _ hr, claim_C9_amended.2 2 _ _⟩

/-- Product `(-∞) · w` is never finite, whatever the finite `w`. -/
theorem FP.mul_ninf_fin_not_finite [LinearOrderedField K] (w : K) :
    (FP.mul FP.ninf (FP.fin w)).isFinite = false := by
  simp only [FP.mul]
  split_ifs <;> rfl

/-- C10.  `invert_similarity` is total — it takes no `Result` and has no
zero-scale guard — and at input scale `0` (with finite angle and
translation) the division `1/s` makes the returned scale `+∞` and both
returned translation components non-finite, for any cosine/sine
implementation; unlike the (spec-modelled) affine inversion, which reports
"not invertible" on a singular matrix instead. -/
theorem claim_C10 [LinearOrderedField K] :
    (∀ (cosF sinF : K → K) (th tx ty : K),
      (invert_similarity_fp cosF sinF ⟨.fin 0, .fin th, .fin tx, .fin ty⟩).s = FP.inf ∧
      (invert_similarity_fp cosF sinF ⟨.fin 0, .fin th, .fin tx, .fin ty⟩).tx.isFinite
        = false ∧
      (invert_similarity_fp cosF sinF ⟨.fin 0, .fin th, .fin tx, .fin ty⟩).ty.isFinite
        = false) ∧
    invert_affine_spec (K := K) 0 0 0 0 0 0 1 = none := by
  constructor
  · intro cosF sinF th tx ty
    have hdiv : FP.div (K := K) (.fin 1) (.fin 0) = FP.inf := by
      simp only [FP.div]
      norm_num
    refine ⟨hdiv, ?_, ?_⟩ <;>
      simp only [invert_similarity_fp, FP.trig, FP.add, FP.mul, hdiv, FP.neg] <;>
      exact FP.mul_ninf_fin_not_finite _
  · simp [invert_affine_spec]

/-- The world-file candidate loop can only error with `parseFloat`. -/
theorem world_file_loop_error (K : Type) [Field K] (fs : Fs) (stem : RPath)
    (cands : List String) (e : IoErr)
    (h : world_file_loop K fs stem cands = .error e) : e = .parseFloat := by
  induction cands with
  | nil => exact absurd h (by simp [world_file_loop])
  | cons wext rest ih =>
    rw [world_file_loop] at h
    split at h
    · split at h
      · cases h
      · cases h
        rfl
    · exact ih h

/-- C5, counterexample.  For the image path `map.tif` whose sidecar
`map.tfw` exists but holds the non-numeric line `"abc"`, resolving
georeferencing propagates a parse error instead of degrading to "no
georeferencing available". -/
theorem claim_C5_counterexample :
    read_georeferencing_for_image ℚ [(⟨"map", "tfw"⟩, "abc")] (fun _ => some none)
      ⟨"map", "tif"⟩ = .error .parseFloat := by
  rfl

/-- C5, amended.  Tag decode failures and missing sidecars degrade to "no
georeferencing" — once the TIFF file itself opens, embedded-tag reading
never returns an error — but an error is still possible and comes from
exactly two sources: a malformed numeric line in a found sidecar world
file (`parseFloat`, via the source's `?`), or `File::open` failing on the
TIFF fallback (`fileOpen`). -/
theorem claim_C5_amended (K : Type) [LinearOrderedField K] (fs : Fs)
    (tiffs : TiffStore K) (p : RPath) :
    (∀ e, read_georeferencing_for_image K fs tiffs p = .error e →
      (e = .parseFloat ∧ read_world_file_for_image K fs p = .error .parseFloat) ∨
      (e = .fileOpen ∧ read_world_file_for_image K fs p = .ok none ∧ tiffs p = none)) ∧
    (∀ dec, tiffs p = some dec →
      ∃ r, read_geotiff_georeferencing K tiffs p = .ok r) := by
  constructor
  · intro e he
    unfold read_georeferencing_for_image at he
    split at he
    next e0 hw =>
      cases he
      have hpf := world_file_loop_error K fs p _ _ hw
      subst hpf
      exact Or.inl ⟨rfl, hw⟩
    next aff hw => cases he
    next hw =>
      by_cases hext : ascii_lower p.ext = "tif" ∨ ascii_lower p.ext = "tiff"
      · rw [if_pos hext] at he
        split at he
        next e0 hg =>
          cases he
          unfold read_geotiff_georeferencing at hg
          split at hg
          next ht =>
            cases hg
            exact Or.inr ⟨rfl, hw, ht⟩
          next ht => cases hg
          next dec ht =>
            split at hg
            next m hm =>
              split at hg <;> cases hg
            next hm => cases hg
        next g hg => cases he
        next hg => cases he
      · rw [if_neg hext] at he
        cases he
  · intro dec hdec
    unfold read_geotiff_georeferencing
    rw [hdec]
    rcases dec with _ | dec
    · exact ⟨none, rfl⟩
    · show ∃ r, (match dec.f64_tags 34264 with
        | some m =>
          if m.length = 16 then
            Except.ok (some ⟨[m.getD 0 0, m.getD 1 0, m.getD 4 0, m.getD 5 0, m.getD 3 0,
              m.getD 7 0], geotiff_epsg dec⟩)
          else Except.ok (geotiff_scale_tie dec)
        | none => Except.ok (geotiff_scale_tie dec)) = Except.ok r
      split
      · split
        · exact ⟨_, rfl⟩
        · exact ⟨_, rfl⟩
      · exact ⟨_, rfl⟩

/-- C5, witness for the amended theorem, at the counterexample input. -/
theorem claim_C5_witness :
    (read_georeferencing_for_image ℚ [(⟨"map", "tfw"⟩, "abc")] (fun _ => some none)
        ⟨"map", "tif"⟩ = .error .parseFloat) ∧
    ((IoErr.parseFloat = .parseFloat ∧
        read_world_file_for_image ℚ [(⟨"map", "tfw"⟩, "abc")] ⟨"map", "tif"⟩
          = .error .parseFloat) ∨
     (IoErr.parseFloat = .fileOpen ∧
        read_world_file_for_image ℚ [(⟨"map", "tfw"⟩, "abc")] ⟨"map", "tif"⟩ = .ok none ∧
        (fun _ => some none : TiffStore ℚ) ⟨"map", "tif"⟩ = none)) ∧
    (∃ r, read_geotiff_georeferencing ℚ (fun _ => some none) ⟨"map", "tif"⟩ = .ok r) := by
  have h : read_georeferencing_for_image ℚ [(⟨"map", "tfw"⟩, "abc")] (fun _ => some none)
      ⟨"map", "tif"⟩ = .error .parseFloat := by rfl
  exact ⟨h,
    (claim_C5_amended ℚ [(⟨"map", "tfw"⟩, "abc")] (fun _ => some none) ⟨"map", "tif"⟩).1
      .parseFloat h,
    (claim_C5_amended ℚ [(⟨"map", "tfw"⟩, "abc")] (fun _ => some none) ⟨"map", "tif"⟩).2
      none rfl⟩

end Georeferencer
